import Mathlib

/-!
Verification of the `did` Go package (W3C Decentralized Identifiers).

Shallow embedding: Go strings are byte sequences, modelled as `List Nat`
with every element below 256. Index-based Go loops are translated to
recursion over the remaining suffix of the subject string, with the byte
index carried alongside for the error locations (`SyntaxError.I`). Slice
expressions `s[a:b]` become `(s.take b).drop a`.
-/

instance {e a : Type} [DecidableEq e] [DecidableEq a] : DecidableEq (Except e a) := fun x y =>
  match x, y with
  | .ok v, .ok w =>
    if h : v = w then .isTrue (by rw [h]) else .isFalse (fun hc => h (Except.ok.inj hc))
  | .error v, .error w =>
    if h : v = w then .isTrue (by rw [h]) else .isFalse (fun hc => h (Except.error.inj hc))
  | .ok _, .error _ => .isFalse (fun hc => Except.noConfusion hc)
  | .error _, .ok _ => .isFalse (fun hc => Except.noConfusion hc)

namespace did

/-- Byte sequence of an ASCII/UTF-8 string literal. -/
def bytesOfString (s : String) : List Nat := s.data.map Char.toNat

/-- The constant `prefix = "did:"` (`d`=100, `i`=105, `d`=100, `:`=58). -/
def prefixBytes : List Nat := [100, 105, 100, 58]

/-- SyntaxError denies a DID string on validation constraints. `S` is the
original input, `I` the index of the first illegal byte, with `s.length`
for an unexpected end of input. -/
structure SyntaxError where
  S : List Nat
  I : Nat
deriving DecidableEq, Repr, Inhabited

/-- DID contains the variable attributes: `Method` and `SpecID`. -/
structure DID where
  Method : List Nat
  SpecID : List Nat
deriving DecidableEq, Repr, Inhabited

/-- `'0' ≤ c ≤ '9'`, the DIGIT cases of the Go switch statements. -/
def isDigit (c : Nat) : Bool := 48 ≤ c && c ≤ 57

/-- `'a' ≤ c ≤ 'z'`, the lower-case ALPHA cases of the Go switch statements. -/
def isLowerAlpha (c : Nat) : Bool := 97 ≤ c && c ≤ 122

/-- `'A' ≤ c ≤ 'Z'`, the upper-case ALPHA cases of the Go switch statements. -/
def isUpperAlpha (c : Nat) : Bool := 65 ≤ c && c ≤ 90

/-- The method-char BNF: DIGIT or `%x61-7A`. -/
def isMethodChar (c : Nat) : Bool := isDigit c || isLowerAlpha c

/-- The idchar BNF excluding pct-encoded and ':': ALPHA, DIGIT, '.', '-', '_'. -/
def isIdChar (c : Nat) : Bool :=
  isDigit c || isLowerAlpha c || isUpperAlpha c || c == 46 || c == 45 || c == 95

/-- One hexadecimal digit: the three nibble cases of `parseHex`. -/
def hexNibble (c : Nat) : Option Nat :=
  if isDigit c then some (c - 48)
  else if 65 ≤ c && c ≤ 70 then some (c - 55)
  else if 97 ≤ c && c ≤ 102 then some (c - 87)
  else none

/-- `parseHex` returns the interpretation of two hex digits of `S` starting at
index `i`; `rest` is the suffix `S.drop i`. -/
def parseHex (S : List Nat) (i : Nat) (rest : List Nat) : Except SyntaxError Nat :=
  match rest with
  | [] => .error ⟨S, i⟩
  | c :: rest2 =>
    match hexNibble c with
    | none => .error ⟨S, i⟩
    | some v =>
      match rest2 with
      | [] => .error ⟨S, i + 1⟩
      | d :: _ =>
        match hexNibble d with
        | none => .error ⟨S, i + 1⟩
        | some w => .ok (v * 16 + w)

/-- The loop of `readMethodName`: scan from byte index `i` (suffix `rest`)
until the ':' separator; `prefix` has length 4. -/
def readMethodNameLoop (s : List Nat) (i : Nat) : List Nat → Except SyntaxError (List Nat)
  | [] => .error ⟨s, s.length⟩
  | c :: rest =>
    if isMethodChar c then readMethodNameLoop s (i + 1) rest
    else if c == 58 then
      if i == 4 then .error ⟨s, 4⟩ else .ok ((s.take i).drop 4)
    else .error ⟨s, i⟩

/-- `readMethodName` scans `s` from the end of the `"did:"` scheme. -/
def readMethodName (s : List Nat) : Except SyntaxError (List Nat) :=
  readMethodNameLoop s 4 (s.drop 4)

/-- The escape-processing loop of `Parse`: `b` is the builder content, `i` the
byte index, `rest` the suffix `s.drop i`. A ':' as the very last byte of `s`
(nothing after it in `rest`) is illegal; a '%' consumes the following two hex
digits through `parseHex`. -/
def specIDEscLoop (s : List Nat) (b : List Nat) (i : Nat) (rest : List Nat) :
    Except SyntaxError (List Nat) :=
  match rest with
  | [] => .ok b
  | c :: rest2 =>
    if c == 58 then
      if rest2.isEmpty then .error ⟨s, i⟩
      else specIDEscLoop s (b ++ [c]) (i + 1) rest2
    else if isIdChar c then specIDEscLoop s (b ++ [c]) (i + 1) rest2
    else if c == 37 then
      match parseHex s (i + 1) rest2 with
      | .error e => .error e
      | .ok v =>
        match rest2 with
        | _ :: _ :: rest3 => specIDEscLoop s (b ++ [v]) (i + 3) rest3
        | _ => .error ⟨s, i + 1⟩ -- not reachable: parseHex read two bytes of rest2
    else .error ⟨s, i⟩

/-- The `NoEscapes` loop of `Parse`: scan the method-specific identifier from
byte index `start`; on the first '%' (at index `i`) switch to `specIDEscLoop`
with the builder preloaded with `s[start:i]`; reaching the end of `s` returns
the raw slice `s[start:]`. -/
def specIDScanLoop (s : List Nat) (start i : Nat) (rest : List Nat) :
    Except SyntaxError (List Nat) :=
  match rest with
  | [] => .ok (s.drop start)
  | c :: rest2 =>
    if c == 58 then
      if rest2.isEmpty then .error ⟨s, i⟩
      else specIDScanLoop s start (i + 1) rest2
    else if isIdChar c then specIDScanLoop s start (i + 1) rest2
    else if c == 37 then specIDEscLoop s ((s.take i).drop start) i (c :: rest2)
    else .error ⟨s, i⟩

/-- The `for i := range prefix` loop in `Parse`: index of the first position
where `s` stops matching `"did:"` (first out-of-range or mismatching byte).
Under the guard that encloses the Go loop a mismatch below index 4 always
exists, so the fallback value 4 is never produced by `Parse`. -/
def firstPrefixMismatch (s : List Nat) : Nat :=
  (((List.range 4).find? fun i =>
    decide (s.length ≤ i) || !(prefixBytes.getD i 0 == s.getD i 0))).getD 4

/-- `strings.IndexAny(s, cs)` for a set `cs` of ASCII bytes. -/
def findIdxAny (s : List Nat) (cs : List Nat) : Option Nat :=
  s.findIdx? (fun c => cs.contains c)

/-- The part of `Parse` after the `"did:"` scheme matched: read the method
name, then the method-specific identifier which must be non-empty. -/
def parseRest (s : List Nat) : Except SyntaxError DID :=
  match readMethodName s with
  | .error e => .error e
  | .ok method =>
    let start := 4 + method.length + 1
    if start ≥ s.length then .error ⟨s, start⟩
    else
      match specIDScanLoop s start start (s.drop start) with
      | .error e => .error e
      | .ok spec => .ok ⟨method, spec⟩

/-- `Parse` validates `s` in full and returns the mapping if, and only if `s`
conforms to the DID syntax. On a missing `"did:"` scheme the error points at
the first ':' when one precedes any of `/?#`, and at the first prefix
mismatch otherwise. -/
def Parse (s : List Nat) : Except SyntaxError DID :=
  if 4 ≤ s.length ∧ s.take 4 = prefixBytes then parseRest s
  else
    match findIdxAny s [58, 47, 63, 35] with
    | some i =>
      if s.getD i 0 == 58 then .error ⟨s, i⟩
      else .error ⟨s, firstPrefixMismatch s⟩
    | none => .error ⟨s, firstPrefixMismatch s⟩

/-- `hexTable` lookup: nibble `n < 16` to its upper-case hex digit. -/
def hexDig (n : Nat) : Nat := if n < 10 then 48 + n else 55 + n

/-- One byte of `DID.String` output: idchar bytes pass, anything else becomes
a three-byte percent-encoding with upper-case hex digits. -/
def escByte (c : Nat) : List Nat :=
  if isIdChar c then [c] else [37, hexDig (c / 16), hexDig (c % 16)]

/-- The escape loop of `DID.String` over the whole `SpecID`. -/
def escAll : List Nat → List Nat
  | [] => []
  | c :: t => escByte c ++ escAll t

/-- `DID.String` returns the DID syntax, the empty string for the zero value.
All bytes outside the idchar set — the ':' included — are percent-encoded;
with no byte to escape the original `SpecID` is emitted as is. -/
def DIDString (d : DID) : List Nat :=
  if d.Method = [] ∧ d.SpecID = [] then []
  else if d.SpecID.countP (fun c => !(isIdChar c)) = 0 then
    prefixBytes ++ d.Method ++ 58 :: d.SpecID
  else
    prefixBytes ++ d.Method ++ 58 :: escAll d.SpecID

/-- `DID.Equal` returns whether both operands are valid and equivalent: the
receiver `d` is validated (non-empty fields, method of method-chars only),
then compared to `o` by plain structure equality. -/
def DIDEqual (d o : DID) : Bool :=
  if d.Method = [] ∨ d.SpecID = [] then false
  else if !(d.Method.all isMethodChar) then false
  else decide (o = d)

/-- The method-specific identifier comparison loop of `DID.EqualString`:
`spec` is the remaining decoded `SpecID`, `rest` the suffix `s.drop i`.
Note the byte cases of the Go switch: DIGIT, lower-case ALPHA, '.', '-', '_',
':' and '%' — upper-case ALPHA falls into the `default: return false` arm. -/
def eqStrLoop (s : List Nat) (i : Nat) (rest : List Nat) (spec : List Nat) : Bool :=
  match spec with
  | [] => rest.isEmpty
  | c :: spec2 =>
    match rest with
    | [] => false
    | x :: rest2 =>
      if isDigit x || isLowerAlpha x || x == 46 || x == 45 || x == 95 then
        x == c && eqStrLoop s (i + 1) rest2 spec2
      else if x == 58 then
        if !(x == c) || spec2.isEmpty then false
        else eqStrLoop s (i + 1) rest2 spec2
      else if x == 37 then
        match parseHex s (i + 1) rest2 with
        | .error _ => false
        | .ok v => v == c && eqStrLoop s (i + 3) (rest2.drop 2) spec2
      else false

/-- `DID.EqualString` returns whether `s` conforms to the DID syntax and is
equivalent to `d`: scheme and method name compare, then the identifier
comparison which resolves percent-encodings in `s` on the fly. -/
def EqualString (d : DID) (s : List Nat) : Bool :=
  if s.length < 4 ∨ s.take 4 ≠ prefixBytes then false
  else
    match readMethodName s with
    | .error _ => false
    | .ok method =>
      if method ≠ d.Method then false
      else if d.SpecID = [] then false
      else eqStrLoop s (4 + method.length + 1) (s.drop (4 + method.length + 1)) d.SpecID

/-- Package-level `Equal`: parse `s1` and compare with `EqualString` to `s2`. -/
def EqualStrings (s1 s2 : List Nat) : Bool :=
  match Parse s1 with
  | .error _ => false
  | .ok d1 => EqualString d1 s2

/-- URL extends the DID syntax with the raw (still escaped) path, query and
fragment components. `RawQuery` keeps its leading '?', `RawFragment` its
leading '#'. The embedded DID may be zero when the URL `IsRelative`. -/
structure URL where
  toDID : DID
  RawPath : List Nat
  RawQuery : List Nat
  RawFragment : List Nat
deriving DecidableEq, Repr, Inhabited

/-- `URL.IsRelative` returns whether `u` misses the DID component. -/
def IsRelative (u : URL) : Bool := u.toDID.Method.isEmpty && u.toDID.SpecID.isEmpty

/-- The query-or-fragment byte alphabet of RFC 3986 excluding pct-encoded:
unreserved, sub-delims, ':', '@', '/' and '?'. -/
def isQFChar (c : Nat) : Bool :=
  isDigit c || isUpperAlpha c || isLowerAlpha c ||
  c == 45 || c == 46 || c == 95 || c == 126 ||
  c == 33 || c == 36 || c == 38 || c == 39 || c == 40 || c == 41 ||
  c == 42 || c == 43 || c == 44 || c == 59 || c == 61 ||
  c == 58 || c == 64 ||
  c == 47 || c == 63

/-- The path byte alphabet of RFC 3986 excluding pct-encoded: as the
query-or-fragment alphabet without the '?'. -/
def isPathChar (c : Nat) : Bool :=
  isDigit c || isUpperAlpha c || isLowerAlpha c ||
  c == 45 || c == 46 || c == 95 || c == 126 ||
  c == 33 || c == 36 || c == 38 || c == 39 || c == 40 || c == 41 ||
  c == 42 || c == 43 || c == 44 || c == 59 || c == 61 ||
  c == 58 || c == 64 ||
  c == 47

/-- One octet of a query or fragment remainder, as read by the switches
inside `escapedWithLeadEqual` (and `pathEqual`): a byte `x` of the allowed
alphabet stands for itself with the rest untouched; a '%' resolves the next
two bytes through `parseHex` (called as `parseHex(a, 1)` on the current
suffix `x :: t`); anything else is invalid. Returns the octet and the
remaining suffix. -/
def readQF (x : Nat) (t : List Nat) : Option (Nat × List Nat) :=
  if isQFChar x then some (x, t)
  else if x == 37 then
    match parseHex (x :: t) 1 t with
    | .error _ => none
    | .ok v => some (v, t.drop 2)
  else none

/-- The loop of `escapedWithLeadEqual`: each iteration reads one octet from
each side through `readQF` and compares the payloads; invalid encodings
never compare equal. The loop consumes at least one byte of `a` per
iteration, so the `fuel` bound — instantiated with more than the length of
`a` — never runs out. -/
def ewlLoop : Nat → List Nat → List Nat → Bool
  | 0, _, _ => false
  | fuel + 1, a, b =>
    match a with
    | [] => b.isEmpty
    | x :: a2 =>
      match b with
      | [] => false
      | y :: b2 =>
        match readQF x a2 with
        | none => false
        | some (av, a3) =>
          match readQF y b2 with
          | none => false
          | some (bv, b3) => av == bv && ewlLoop fuel a3 b3

/-- `escapedWithLeadEqual` returns whether `a` and `b` both start with `lead`
and their remainders represent the same octet sequence; byte-identical
operands compare equal up front, one side empty with the other not never
does. -/
def escapedWithLeadEqual (a b : List Nat) (lead : Nat) : Bool :=
  if a == b then true
  else if a.isEmpty || b.isEmpty then false
  else if !(a.headD 0 == lead) || !(b.headD 0 == lead) then false
  else ewlLoop ((a.drop 1).length + 1) (a.drop 1) (b.drop 1)

/-- Split on '/' bytes; `cur` is the segment collected so far. -/
def splitSlashAcc (cur : List Nat) : List Nat → List (List Nat)
  | [] => [cur]
  | c :: t => if c == 47 then cur :: splitSlashAcc [] t else splitSlashAcc (cur ++ [c]) t

/-- All '/'-separated chunks of `s`. -/
def splitSlash (s : List Nat) : List (List Nat) := splitSlashAcc [] s

/-- Modelled from the Go standard library `path.Clean` on rooted paths:
drop empty and "." segments, let ".." pop the previous segment (or vanish at
the root). -/
def cleanSegs (acc : List (List Nat)) : List (List Nat) → List (List Nat)
  | [] => acc
  | seg :: t =>
    if seg = [] ∨ seg = [46] then cleanSegs acc t
    else if seg = [46, 46] then cleanSegs acc.dropLast t
    else cleanSegs (acc ++ [seg]) t

/-- Concatenation with '/' separators. -/
def joinSlash : List (List Nat) → List Nat
  | [] => []
  | [x] => x
  | x :: t => x ++ 47 :: joinSlash t

/-- Modelled from the Go standard library: `path.Join("/", s)` with the
leading slash dropped again, as computed in `pathEqual`. -/
def cleanRooted (s : List Nat) : List Nat := joinSlash (cleanSegs [] (splitSlash s))

/-- One octet of a path, as read by the switches inside `pathEqual`:
like `readQF` over the path alphabet, additionally reporting whether the
octet came from a percent-encoded path separator ("%2F"). -/
def readPath (x : Nat) (t : List Nat) : Option (Nat × Bool × List Nat) :=
  if isPathChar x then some (x, false, t)
  else if x == 37 then
    match parseHex (x :: t) 1 t with
    | .error _ => none
    | .ok v => some (v, v == 47, t.drop 2)
  else none

/-- The loop of `pathEqual`: like `ewlLoop` over the path alphabet, except
that the octets must also agree on whether they were escaped path
separators (`ac != bc || aEscSep != bEscSep` fails). The `fuel` bound —
instantiated with more than the length of `a` — never runs out. -/
def peLoop : Nat → List Nat → List Nat → Bool
  | 0, _, _ => false
  | fuel + 1, a, b =>
    match a with
    | [] => b.isEmpty
    | x :: a2 =>
      match b with
      | [] => false
      | y :: b2 =>
        match readPath x a2 with
        | none => false
        | some (av, aEscSep, a3) =>
          match readPath y b2 with
          | none => false
          | some (bv, bEscSep, b3) =>
            (av == bv && aEscSep == bEscSep) && peLoop fuel a3 b3

/-- `pathEqual` returns whether `a` and `b` represent the same path when
normalized (without root, following `path.Clean`); byte-identical operands
compare equal up front, and one side empty with the other not never does. -/
def pathEqual (a b : List Nat) : Bool :=
  if a == b then true
  else if a.isEmpty || b.isEmpty then false
  else peLoop ((cleanRooted a).length + 1) (cleanRooted a) (cleanRooted b)

/-- `URL.Equal` returns whether both `u` and `o` are valid and equivalent:
`o` must not be relative, the DIDs must be `DID.Equal`, and fragment, query
and path must each compare equal on their raw escaped forms. -/
def URLEqual (u o : URL) : Bool :=
  !(IsRelative o) && DIDEqual o.toDID u.toDID &&
    escapedWithLeadEqual o.RawFragment u.RawFragment 35 &&
    escapedWithLeadEqual o.RawQuery u.RawQuery 63 &&
    pathEqual o.RawPath u.RawPath

/-- The fragment-reading loop of `ParseURL`: validates the remaining bytes
and returns `s[offset:]` (the fragment with its '#' lead). -/
def fragLoop (s : List Nat) (offset i : Nat) (rest : List Nat) :
    Except SyntaxError (List Nat) :=
  match rest with
  | [] => .ok (s.drop offset)
  | c :: rest2 =>
    if isQFChar c then fragLoop s offset (i + 1) rest2
    else if c == 37 then
      match parseHex s (i + 1) rest2 with
      | .error e => .error e
      | .ok _ =>
        match rest2 with
        | _ :: _ :: rest3 => fragLoop s offset (i + 3) rest3
        | _ => .error ⟨s, i + 1⟩ -- not reachable: parseHex read two bytes of rest2
    else .error ⟨s, i⟩

/-- The query-reading loop of `ParseURL`: validates bytes until a '#' or the
end; returns the raw query (with its '?' lead) and the raw fragment. -/
def queryLoop (s : List Nat) (offset i : Nat) (rest : List Nat) :
    Except SyntaxError (List Nat × List Nat) :=
  match rest with
  | [] => .ok (s.drop offset, [])
  | c :: rest2 =>
    if c == 35 then
      match fragLoop s i (i + 1) rest2 with
      | .error e => .error e
      | .ok frag => .ok ((s.take i).drop offset, frag)
    else if isQFChar c then queryLoop s offset (i + 1) rest2
    else if c == 37 then
      match parseHex s (i + 1) rest2 with
      | .error e => .error e
      | .ok _ =>
        match rest2 with
        | _ :: _ :: rest3 => queryLoop s offset (i + 3) rest3
        | _ => .error ⟨s, i + 1⟩ -- not reachable: parseHex read two bytes of rest2
    else .error ⟨s, i⟩

/-- The path-reading loop of `ParseURL`: validates bytes until a '?' or '#'
or the end; returns the raw path, query and fragment triple. -/
def pathLoop (s : List Nat) (offset i : Nat) (rest : List Nat) :
    Except SyntaxError (List Nat × List Nat × List Nat) :=
  match rest with
  | [] => .ok (s.drop offset, [], [])
  | c :: rest2 =>
    if c == 63 then
      match queryLoop s i (i + 1) rest2 with
      | .error e => .error e
      | .ok (q, f) => .ok ((s.take i).drop offset, q, f)
    else if c == 35 then
      match fragLoop s i (i + 1) rest2 with
      | .error e => .error e
      | .ok f => .ok ((s.take i).drop offset, [], f)
    else if isPathChar c then pathLoop s offset (i + 1) rest2
    else if c == 37 then
      match parseHex s (i + 1) rest2 with
      | .error e => .error e
      | .ok _ =>
        match rest2 with
        | _ :: _ :: rest3 => pathLoop s offset (i + 3) rest3
        | _ => .error ⟨s, i + 1⟩ -- not reachable: parseHex read two bytes of rest2
    else .error ⟨s, i⟩

/-- The relative-reference check of `ParseURL`: a ':' before any of `/?#`
reveals a non-"did" scheme (RFC 3986, subsection 4.2) and its index. -/
def relColonScanLoop (i : Nat) : List Nat → Option Nat
  | [] => none
  | c :: t =>
    if c == 58 then some i
    else if c == 47 || c == 63 || c == 35 then none
    else relColonScanLoop (i + 1) t

/-- `ParseURL` validates `s` in full and returns the mapping if, and only if
`s` conforms to the DID URL syntax; the result can be `IsRelative`. A string
with the `"did:"` scheme is cut at the first of `/?#` and its front given to
`Parse` (a parse error is re-reported against the whole of `s`). -/
def ParseURL (s : List Nat) : Except SyntaxError URL :=
  if s = [] then .error ⟨[], 0⟩
  else if 4 ≤ s.length ∧ s.take 4 = prefixBytes then
    match findIdxAny s [47, 63, 35] with
    | none =>
      match Parse s with
      | .error e => .error e
      | .ok d => .ok ⟨d, [], [], []⟩
    | some i =>
      match Parse (s.take i) with
      | .error e => .error ⟨s, e.I⟩
      | .ok d =>
        match pathLoop s i i (s.drop i) with
        | .error e => .error e
        | .ok (p, q, f) => .ok ⟨d, p, q, f⟩
  else
    match relColonScanLoop 0 s with
    | some i => .error ⟨s, i⟩
    | none =>
      match pathLoop s 0 0 s with
      | .error e => .error e
      | .ok (p, q, f) => .ok ⟨⟨[], []⟩, p, q, f⟩

/-- `URL.EqualString`: parse `s` and compare with `URL.Equal`. -/
def URLEqualString (u : URL) (s : List Nat) : Bool :=
  match ParseURL s with
  | .error _ => false
  | .ok o => URLEqual u o

/-- Package-level `URLEqual`: parse `s1` and compare with `URL.EqualString`
to `s2`. -/
def URLEqualStrings (s1 s2 : List Nat) : Bool :=
  match ParseURL s1 with
  | .error _ => false
  | .ok u1 => URLEqualString u1 s2

/-- `bestEffortDecode` resolves percent-encodings; a '%' whose following two
bytes fail `parseHex` passes as is and scanning resumes right after it. -/
def bestEffortDecode : List Nat → List Nat
  | [] => []
  | c :: t =>
    if c == 37 then
      match parseHex (c :: t) 1 t with
      | .ok v =>
        match t with
        | _ :: _ :: t2 => v :: bestEffortDecode t2
        | _ => [] -- not reachable: parseHex read two bytes of t
      | .error _ => c :: bestEffortDecode t
    else c :: bestEffortDecode t

/-- `strings.TrimPrefix(s, "/")`. -/
def trimPrefixSlash (s : List Nat) : List Nat :=
  match s with
  | 47 :: t => t
  | _ => s

/-- The splitting of `PathSegments`: cut at each '/' (`cur` is the segment
collected so far), decode every directory, and append the last segment only
when non-empty. -/
def psSplit (cur : List Nat) : List Nat → List (List Nat)
  | [] => if cur = [] then [] else [bestEffortDecode cur]
  | c :: t =>
    if c == 47 then bestEffortDecode cur :: psSplit [] t
    else psSplit (cur ++ [c]) t

/-- `URL.PathSegments` returns each component of the raw path, resolving
percent-encodings on a best-effort basis. -/
def PathSegments (rawPath : List Nat) : List (List Nat) :=
  if rawPath = [] then [] else psSplit [] (trimPrefixSlash rawPath)

/-- Modelled from the Go standard library `url.PathEscape`
(`shouldEscape` in `encodePathSegment` mode): alphanumerics, the unreserved
marks `-._~` and the reserved characters `$&+:=@` stay; everything else —
'/', ';', ',', '?' and '%' included — is escaped. -/
def pathEscapeSafe (c : Nat) : Bool :=
  isDigit c || isUpperAlpha c || isLowerAlpha c ||
  c == 45 || c == 95 || c == 46 || c == 126 ||
  c == 36 || c == 38 || c == 43 || c == 58 || c == 61 || c == 64

/-- One byte of `url.PathEscape` output. -/
def pathEscapeByte (c : Nat) : List Nat :=
  if pathEscapeSafe c then [c] else [37, hexDig (c / 16), hexDig (c % 16)]

/-- Modelled from the Go standard library `url.PathEscape` over all bytes. -/
def pathEscape : List Nat → List Nat
  | [] => []
  | c :: t => pathEscapeByte c ++ pathEscape t

/-- `URL.SetPathSegments` builds the raw path: '/' before every escaped
segment, and one more trailing '/' when the last segment is empty. -/
def SetPathSegments (segs : List (List Nat)) : List Nat :=
  match segs with
  | [] => []
  | _ =>
    (segs.map fun s => 47 :: pathEscape s).flatten ++
      (if segs.getLast? = some [] then [47] else [])

/-- `URL.String`: the DID string followed by the raw path, query and
fragment. -/
def URLString (u : URL) : List Nat :=
  DIDString u.toDID ++ u.RawPath ++ u.RawQuery ++ u.RawFragment

/-- VerificationMethod is a set of parameters to independently verify a
proof: the required `id`, `type` and `controller` plus any additional
properties (name and raw JSON value). -/
structure VerificationMethod where
  ID : URL
  vmType : List Nat
  Controller : DID
  Additional : List (List Nat × List Nat)
deriving DecidableEq, Repr, Inhabited

/-- VerificationRelationship: embedded methods and referenced URIs. Go holds
the embedded methods as pointers (`[]*VerificationMethod`); a pointer is
modelled as an index into an allocation heap (`List VerificationMethod`), so
that two different allocations with equal content stay distinguishable. -/
structure VerificationRelationship where
  Methods : List Nat
  URIRefs : List (List Nat)
deriving DecidableEq, Repr, Inhabited

/-- Doc holds the core properties of a DID document. Embedded verification
methods are heap indices (Go pointers); the `Services` list is not consulted
by `EmbeddedVerificationMethods` and is carried opaquely. -/
structure Doc where
  Subject : DID
  Controllers : List DID
  VerificationMethods : List Nat
  Authentication : Option VerificationRelationship
  AssertionMethod : Option VerificationRelationship
  KeyAgreement : Option VerificationRelationship
  CapabilityInvocation : Option VerificationRelationship
  CapabilityDelegation : Option VerificationRelationship
  Services : List Nat
deriving DecidableEq, Repr, Inhabited

/-- `m.ID.String()` for the heap entry behind pointer `r`. -/
def idStringOf (heap : List VerificationMethod) (r : Nat) : List Nat :=
  URLString ((heap.getD r default).ID)

/-- Association-list reading of the Go `map[string]*VerificationMethod`. -/
def findID (s : List Nat) : List (List Nat × Nat) → Option Nat
  | [] => none
  | (k, r) :: t => if k = s then some r else findID s t

/-- The errors of `Doc.EmbeddedVerificationMethods`: a duplicate id inside
the "verificationMethod" property, or an id embedded twice with a differing
pointer (reported as differing content). -/
inductive EmbedError where
  | dupVerificationMethod : List Nat → EmbedError
  | embeddedTwiceDiffering : List Nat → EmbedError
deriving DecidableEq, Repr

/-- The first loop of `Doc.EmbeddedVerificationMethods`: install the listed
verification methods, any duplicate id is an error. -/
def installListed (heap : List VerificationMethod) (perID : List (List Nat × Nat)) :
    List Nat → Except EmbedError (List (List Nat × Nat))
  | [] => .ok perID
  | r :: t =>
    let s := idStringOf heap r
    match findID s perID with
    | some _ => .error (.dupVerificationMethod s)
    | none => installListed heap (perID ++ [(s, r)]) t

/-- The inner loop of the second pass of `Doc.EmbeddedVerificationMethods`:
include a relationship's embedded methods without overwrites — a present id
is tolerated only for the very same pointer (`m0 != m` in Go compares the
pointers), otherwise it is an error. -/
def includeEmbedded (heap : List VerificationMethod) (perID : List (List Nat × Nat)) :
    List Nat → Except EmbedError (List (List Nat × Nat))
  | [] => .ok perID
  | r :: t =>
    let s := idStringOf heap r
    match findID s perID with
    | none => includeEmbedded heap (perID ++ [(s, r)]) t
    | some r0 =>
      if r0 ≠ r then .error (.embeddedTwiceDiffering s)
      else includeEmbedded heap perID t

/-- A nil relationship contributes no methods. -/
def relMethods : Option VerificationRelationship → List Nat
  | none => []
  | some r => r.Methods

/-- The outer loop of the second pass over the five relationships. -/
def includeRelationships (heap : List VerificationMethod) (perID : List (List Nat × Nat)) :
    List (Option VerificationRelationship) → Except EmbedError (List (List Nat × Nat))
  | [] => .ok perID
  | r :: t =>
    match includeEmbedded heap perID (relMethods r) with
    | .error e => .error e
    | .ok perID2 => includeRelationships heap perID2 t

/-- `Doc.EmbeddedVerificationMethods` compiles the id-to-method lookup from
the "verificationMethod" property and the five relationships. -/
def EmbeddedVerificationMethods (heap : List VerificationMethod) (doc : Doc) :
    Except EmbedError (List (List Nat × Nat)) :=
  match installListed heap [] doc.VerificationMethods with
  | .error e => .error e
  | .ok perID =>
    includeRelationships heap perID
      [doc.Authentication, doc.AssertionMethod, doc.KeyAgreement,
       doc.CapabilityInvocation, doc.CapabilityDelegation]

/-- Modelled from the Go standard library `strconv.AppendQuote` for one
byte; the exact escape forms are irrelevant to the theorems below. -/
def quoteByte (c : Nat) : List Nat :=
  if c == 34 || c == 92 then [92, c]
  else if c < 32 || 127 ≤ c then [92, 120, hexDig (c / 16), hexDig (c % 16)]
  else [c]

/-- Modelled from the Go standard library `strconv.AppendQuote`. -/
def appendQuote (s : List Nat) : List Nat :=
  34 :: (s.map quoteByte).flatten ++ [34]

/-- The `Additional` loop of `VerificationMethod.MarshalJSON`: a reserved
core property name in the additional set aborts with an error naming it;
other properties are appended as `,"name":value`. -/
def marshalAdditionalVM (buf : List Nat) :
    List (List Nat × List Nat) → Except (List Nat) (List Nat)
  | [] => .ok (buf ++ [125])
  | (k, v) :: t =>
    if k == bytesOfString "id" || k == bytesOfString "type" ||
        k == bytesOfString "controller" then .error k
    else marshalAdditionalVM (buf ++ [44] ++ appendQuote k ++ [58] ++ v) t

/-- `VerificationMethod.MarshalJSON`: the fixed `id`, `type` and
`controller` members first, then the additional properties. -/
def marshalVerificationMethod (m : VerificationMethod) : Except (List Nat) (List Nat) :=
  marshalAdditionalVM
    (bytesOfString "\x7b\"id\":" ++ appendQuote (URLString m.ID) ++
     bytesOfString ",\"type\":" ++ appendQuote m.vmType ++
     bytesOfString ",\"controller\":" ++ appendQuote (DIDString m.Controller))
    m.Additional

/-- The fuel-bounded core of `decodeEscaped`: one octet through `readQF`
per step. -/
def decodeEscapedF : Nat → List Nat → Option (List Nat)
  | 0, l =>
    match l with
    | [] => some []
    | _ => none
  | fuel + 1, l =>
    match l with
    | [] => some []
    | x :: t =>
      match readQF x t with
      | none => none
      | some (v, t2) =>
        match decodeEscapedF fuel t2 with
        | none => none
        | some l2 => some (v :: l2)

/-- The octet sequence a query or fragment remainder stands for: literal
bytes of the query-or-fragment alphabet, percent-encodings resolved; `none`
on an invalid encoding. Used to state what `escapedWithLeadEqual` compares.
Each step consumes at least one byte, so the fuel never runs out. -/
def decodeEscaped (l : List Nat) : Option (List Nat) := decodeEscapedF (l.length + 1) l

/-- The shape of every `DID` produced by a successful `Parse` of a byte
string: a non-empty method of method-chars and a non-empty identifier of
bytes. -/
def ValidDID (d : DID) : Prop :=
  d.Method ≠ [] ∧ (∀ c ∈ d.Method, isMethodChar c = true) ∧
  d.SpecID ≠ [] ∧ ∀ c ∈ d.SpecID, c < 256

end did

/-- C1: the claim asserts that every string `s` accepted by `Parse` satisfies
`Parse(s).EqualString(s)`, naming `"did:example:ABC"` in particular. The code
contradicts it (and `EqualString`'s own contract): `Parse` accepts the
upper-case spec-id `"ABC"` and the parsed value equals itself under
`DID.Equal`, yet `EqualString` on the very same input returns false, because
the spec-id comparison switch has no upper-case ALPHA cases. -/
theorem claim_C1_equal_string_reflexivity_bug :
    did.Parse (did.bytesOfString "did:example:ABC") =
      .ok ⟨did.bytesOfString "example", did.bytesOfString "ABC"⟩ ∧
    did.DIDEqual ⟨did.bytesOfString "example", did.bytesOfString "ABC"⟩
      ⟨did.bytesOfString "example", did.bytesOfString "ABC"⟩ = true ∧
    did.EqualString ⟨did.bytesOfString "example", did.bytesOfString "ABC"⟩
      (did.bytesOfString "did:example:ABC") = false := by decide

/-- C4: the three spellings of `did:example:escaped🤖` — raw, `%65` for the
first 'e', `%65` for the second 'e' — are mutually equivalent: parsing any
one and applying `EqualString` to any other returns true (`EqualStrings` is
exactly that composition). -/
theorem claim_C4_percent_encoding_equivalence :
    did.EqualStrings (did.bytesOfString "did:example:escaped%F0%9F%A4%96")
      (did.bytesOfString "did:example:%65scaped%F0%9F%A4%96") = true ∧
    did.EqualStrings (did.bytesOfString "did:example:escaped%F0%9F%A4%96")
      (did.bytesOfString "did:example:escap%65d%F0%9F%A4%96") = true ∧
    did.EqualStrings (did.bytesOfString "did:example:%65scaped%F0%9F%A4%96")
      (did.bytesOfString "did:example:escaped%F0%9F%A4%96") = true ∧
    did.EqualStrings (did.bytesOfString "did:example:%65scaped%F0%9F%A4%96")
      (did.bytesOfString "did:example:escap%65d%F0%9F%A4%96") = true ∧
    did.EqualStrings (did.bytesOfString "did:example:escap%65d%F0%9F%A4%96")
      (did.bytesOfString "did:example:escaped%F0%9F%A4%96") = true ∧
    did.EqualStrings (did.bytesOfString "did:example:escap%65d%F0%9F%A4%96")
      (did.bytesOfString "did:example:%65scaped%F0%9F%A4%96") = true := by decide

/-- C8: `Parse("did:")` fails with a `SyntaxError` at index 4, the length of
the input (the end-of-input sentinel); `Parse("did::bar")` fails with a
`SyntaxError` at index 4, the offset of the illegal leading colon of the
method name. -/
theorem claim_C8_syntax_error_locations :
    did.Parse (did.bytesOfString "did:") =
      .error ⟨did.bytesOfString "did:", 4⟩ ∧
    (did.bytesOfString "did:").length = 4 ∧
    did.Parse (did.bytesOfString "did::bar") =
      .error ⟨did.bytesOfString "did::bar", 4⟩ := by decide

/-- C5: a relative DID URL never compares equal: whenever `u` or `o` is
relative, `u.Equal(o)` returns false — in particular a relative `u` does not
even equal itself. -/
theorem claim_C5_relative_never_equal (u o : did.URL)
    (h : did.IsRelative u = true ∨ did.IsRelative o = true) :
    did.URLEqual u o = false := by
  rcases h with hu | ho
  · by_cases ho : did.IsRelative o = true
    · simp [did.URLEqual, ho]
    · have ho2 : did.IsRelative o = false := by
        revert ho; cases did.IsRelative o <;> simp
      have hM : u.toDID.Method = [] ∧ u.toDID.SpecID = [] := by
        have := hu
        simp only [did.IsRelative, Bool.and_eq_true, List.isEmpty_iff] at this
        exact this
      have hDID : did.DIDEqual o.toDID u.toDID = false := by
        unfold did.DIDEqual
        by_cases h1 : o.toDID.Method = [] ∨ o.toDID.SpecID = []
        · simp [h1]
        · push_neg at h1
          have hne : ¬(u.toDID = o.toDID) := by
            intro he
            exact h1.1 (by rw [← he, hM.1])
          simp [h1.1, h1.2, hne]
      simp [did.URLEqual, hDID]
  · simp [did.URLEqual, ho]

/-- C5 witness: a concrete relative URL (fragment-only reference) is
relative and does not compare equal to itself. -/
theorem claim_C5_relative_never_equal_witness :
    did.IsRelative ⟨⟨[], []⟩, [], [], did.bytesOfString "#frag"⟩ = true ∧
    did.URLEqual ⟨⟨[], []⟩, [], [], did.bytesOfString "#frag"⟩
      ⟨⟨[], []⟩, [], [], did.bytesOfString "#frag"⟩ = false :=
  ⟨by decide,
   claim_C5_relative_never_equal _ _ (Or.inl (by decide))⟩

/-- C10: `DID.Equal` validates its receiver, so it is not reflexive on
unvalidated values: whenever `d` has an empty method, an empty spec-id, or a
method byte outside `[a-z0-9]`, `d.Equal(o)` is false for every `o` — the
zero DID does not equal itself. -/
theorem claim_C10_equal_validates_receiver (d o : did.DID)
    (h : d.Method = [] ∨ d.SpecID = [] ∨ ∃ c ∈ d.Method, did.isMethodChar c = false) :
    did.DIDEqual d o = false := by
  unfold did.DIDEqual
  rcases h with h1 | h2 | ⟨c, hc, hbad⟩
  · simp [h1]
  · simp [h2]
  · by_cases hz : d.Method = [] ∨ d.SpecID = []
    · simp [hz]
    · push_neg at hz
      have hall : d.Method.all did.isMethodChar = false := by
        rw [← Bool.not_eq_true, List.all_eq_true]
        intro hforall
        rw [hforall c hc] at hbad
        exact absurd hbad (by simp)
      simp [hz.1, hz.2, hall]

/-- C10 witness: the zero DID does not equal itself. -/
theorem claim_C10_equal_validates_receiver_witness :
    did.DIDEqual ⟨[], []⟩ ⟨[], []⟩ = false :=
  claim_C10_equal_validates_receiver ⟨[], []⟩ ⟨[], []⟩ (Or.inl rfl)

/-- Helper for C9: when the additional set holds a reserved core property
name, the `Additional` loop of `VerificationMethod.MarshalJSON` errors,
whatever was buffered before. -/
theorem marshalAdditionalVM_reserved_error (l : List (List Nat × List Nat))
    (k v : List Nat) (hmem : (k, v) ∈ l)
    (hres : k = did.bytesOfString "id" ∨ k = did.bytesOfString "type" ∨
      k = did.bytesOfString "controller") :
    ∀ buf, ∃ e, did.marshalAdditionalVM buf l = .error e := by
  induction l with
  | nil => cases hmem
  | cons hd t ih =>
    intro buf
    obtain ⟨k2, v2⟩ := hd
    by_cases hr : (k2 == did.bytesOfString "id" || k2 == did.bytesOfString "type" ||
        k2 == did.bytesOfString "controller") = true
    · exact ⟨k2, by simp [did.marshalAdditionalVM, hr]⟩
    · rcases List.mem_cons.mp hmem with heq | hmem2
      · exfalso
        apply hr
        have hk : k2 = k := (congrArg Prod.fst heq).symm
        rcases hres with h | h | h <;> simp [hk, h]
      · have hfalse : (k2 == did.bytesOfString "id" || k2 == did.bytesOfString "type" ||
            k2 == did.bytesOfString "controller") = false := by
          revert hr; cases (k2 == did.bytesOfString "id" || k2 == did.bytesOfString "type" ||
            k2 == did.bytesOfString "controller") <;> simp
        have := ih hmem2 (buf ++ [44] ++ did.appendQuote k2 ++ [58] ++ v2)
        simpa [did.marshalAdditionalVM, hfalse] using this

/-- C9: encoding a `VerificationMethod` whose `Additional` map still holds
one of the reserved names `id`, `type` or `controller` fails with an error,
for every such map content. -/
theorem claim_C9_reserved_property_encode_error (m : did.VerificationMethod)
    (k v : List Nat) (hmem : (k, v) ∈ m.Additional)
    (hres : k = did.bytesOfString "id" ∨ k = did.bytesOfString "type" ∨
      k = did.bytesOfString "controller") :
    ∃ e, did.marshalVerificationMethod m = .error e :=
  marshalAdditionalVM_reserved_error m.Additional k v hmem hres _

/-- C9 witness: a concrete method whose additional set carries `"id"` fails
to encode. -/
theorem claim_C9_reserved_property_encode_error_witness :
    ∃ e, did.marshalVerificationMethod
      ⟨⟨⟨did.bytesOfString "example", did.bytesOfString "123"⟩, [], [],
          did.bytesOfString "#key-1"⟩,
        did.bytesOfString "JsonWebKey2020",
        ⟨did.bytesOfString "example", did.bytesOfString "123"⟩,
        [(did.bytesOfString "id", did.bytesOfString "0")]⟩ = .error e :=
  claim_C9_reserved_property_encode_error _
    (did.bytesOfString "id") (did.bytesOfString "0")
    (by decide) (Or.inl rfl)

/-- C6 counterexample: two embedded methods with byte-identical content (the
heap holds the same record twice, at pointers 0 and 1) and hence the same id
string make `Doc.EmbeddedVerificationMethods` fail — the `m0 != m` test
compares the pointers, so identical content is NOT tolerated; the claim says
such a duplicate is silently deduplicated. -/
theorem claim_C6_identical_content_counterexample :
    [(⟨⟨⟨did.bytesOfString "example", did.bytesOfString "123"⟩, [], [],
        did.bytesOfString "#key-1"⟩,
      did.bytesOfString "JsonWebKey2020",
      ⟨did.bytesOfString "example", did.bytesOfString "123"⟩, []⟩ :
        did.VerificationMethod),
     ⟨⟨⟨did.bytesOfString "example", did.bytesOfString "123"⟩, [], [],
        did.bytesOfString "#key-1"⟩,
      did.bytesOfString "JsonWebKey2020",
      ⟨did.bytesOfString "example", did.bytesOfString "123"⟩, []⟩].getD 0 default =
    [(⟨⟨⟨did.bytesOfString "example", did.bytesOfString "123"⟩, [], [],
        did.bytesOfString "#key-1"⟩,
      did.bytesOfString "JsonWebKey2020",
      ⟨did.bytesOfString "example", did.bytesOfString "123"⟩, []⟩ :
        did.VerificationMethod),
     ⟨⟨⟨did.bytesOfString "example", did.bytesOfString "123"⟩, [], [],
        did.bytesOfString "#key-1"⟩,
      did.bytesOfString "JsonWebKey2020",
      ⟨did.bytesOfString "example", did.bytesOfString "123"⟩, []⟩].getD 1 default ∧
    did.EmbeddedVerificationMethods
      [⟨⟨⟨did.bytesOfString "example", did.bytesOfString "123"⟩, [], [],
          did.bytesOfString "#key-1"⟩,
        did.bytesOfString "JsonWebKey2020",
        ⟨did.bytesOfString "example", did.bytesOfString "123"⟩, []⟩,
       ⟨⟨⟨did.bytesOfString "example", did.bytesOfString "123"⟩, [], [],
          did.bytesOfString "#key-1"⟩,
        did.bytesOfString "JsonWebKey2020",
        ⟨did.bytesOfString "example", did.bytesOfString "123"⟩, []⟩]
      ⟨⟨did.bytesOfString "example", did.bytesOfString "123"⟩, [], [0],
        some ⟨[1], []⟩, none, none, none, none, []⟩ =
    .error (did.EmbedError.embeddedTwiceDiffering
      (did.bytesOfString "did:example:123#key-1")) := by decide

/-- C6 as amended: with one listed method `r0` and one embedded method `r1`
carrying the same id string, building the index errors whenever the two are
distinct pointers — even with byte-identical content — and tolerates the
duplicate (keeping the single entry) exactly when both are the very same
pointer. -/
theorem claim_C6_duplicate_is_pointer_identity (heap : List did.VerificationMethod)
    (subj : did.DID) (ctrls : List did.DID) (refs : List (List Nat))
    (svcs : List Nat) (r0 r1 : Nat)
    (hid : did.idStringOf heap r0 = did.idStringOf heap r1) :
    (r0 = r1 → did.EmbeddedVerificationMethods heap
        ⟨subj, ctrls, [r0], some ⟨[r1], refs⟩, none, none, none, none, svcs⟩ =
      .ok [(did.idStringOf heap r0, r0)]) ∧
    (r0 ≠ r1 → did.EmbeddedVerificationMethods heap
        ⟨subj, ctrls, [r0], some ⟨[r1], refs⟩, none, none, none, none, svcs⟩ =
      .error (did.EmbedError.embeddedTwiceDiffering (did.idStringOf heap r1))) := by
  constructor
  · intro he
    subst he
    simp [did.EmbeddedVerificationMethods, did.installListed, did.findID,
      did.includeRelationships, did.includeEmbedded, did.relMethods, hid]
  · intro hne
    simp [did.EmbeddedVerificationMethods, did.installListed, did.findID,
      did.includeRelationships, did.includeEmbedded, did.relMethods, hid, hne]

/-- C6 amended witness: the same pointer listed and embedded is deduplicated
into a single entry, two distinct pointers with the same id string error. -/
theorem claim_C6_duplicate_is_pointer_identity_witness :
    (did.EmbeddedVerificationMethods
      [⟨⟨⟨did.bytesOfString "example", did.bytesOfString "123"⟩, [], [],
          did.bytesOfString "#key-1"⟩,
        did.bytesOfString "JsonWebKey2020",
        ⟨did.bytesOfString "example", did.bytesOfString "123"⟩, []⟩,
       ⟨⟨⟨did.bytesOfString "example", did.bytesOfString "123"⟩, [], [],
          did.bytesOfString "#key-1"⟩,
        did.bytesOfString "JsonWebKey2020",
        ⟨did.bytesOfString "example", did.bytesOfString "123"⟩, []⟩]
      ⟨⟨did.bytesOfString "example", did.bytesOfString "123"⟩, [], [0],
        some ⟨[0], []⟩, none, none, none, none, []⟩ =
      .ok [(did.idStringOf
        [⟨⟨⟨did.bytesOfString "example", did.bytesOfString "123"⟩, [], [],
            did.bytesOfString "#key-1"⟩,
          did.bytesOfString "JsonWebKey2020",
          ⟨did.bytesOfString "example", did.bytesOfString "123"⟩, []⟩,
         ⟨⟨⟨did.bytesOfString "example", did.bytesOfString "123"⟩, [], [],
            did.bytesOfString "#key-1"⟩,
          did.bytesOfString "JsonWebKey2020",
          ⟨did.bytesOfString "example", did.bytesOfString "123"⟩, []⟩] 0, 0)]) :=
  (claim_C6_duplicate_is_pointer_identity _ _ _ _ _ 0 0 rfl).1 rfl

theorem hexNibble_le {c v : Nat} (h : did.hexNibble c = some v) : v ≤ 15 := by
  unfold did.hexNibble did.isDigit at h
  split_ifs at h with h1 h2 h3 <;> simp_all <;> omega

theorem hexNibble_hexDig {n : Nat} (h : n ≤ 15) : did.hexNibble (did.hexDig n) = some n := by
  unfold did.hexNibble did.hexDig did.isDigit
  split_ifs <;> simp_all <;> omega

theorem parseHex_ok_lt {S rest : List Nat} {i v : Nat}
    (h : did.parseHex S i rest = .ok v) : v < 256 := by
  unfold did.parseHex at h
  rcases rest with _ | ⟨c, _ | ⟨d, t⟩⟩ <;> simp_all
  · rcases hc : did.hexNibble c with _ | vc <;> simp [hc] at h
  · rcases hc : did.hexNibble c with _ | vc <;> simp [hc] at h
    rcases hd : did.hexNibble d with _ | vd <;> simp [hd] at h
    have := hexNibble_le hc
    have := hexNibble_le hd
    omega

theorem parseHex_encoded (S t : List Nat) (i c : Nat) (hc : c < 256) :
    did.parseHex S i (did.hexDig (c / 16) :: did.hexDig (c % 16) :: t) = .ok c := by
  have h1 : c / 16 ≤ 15 := by omega
  have h2 : c % 16 ≤ 15 := by omega
  simp [did.parseHex, hexNibble_hexDig h1, hexNibble_hexDig h2]
  omega

theorem escAll_append (a b : List Nat) :
    did.escAll (a ++ b) = did.escAll a ++ did.escAll b := by
  induction a with
  | nil => rfl
  | cons c t ih => simp [did.escAll, ih]

theorem escAll_of_idChar {l : List Nat} (h : ∀ c ∈ l, did.isIdChar c = true) :
    did.escAll l = l := by
  induction l with
  | nil => rfl
  | cons c t ih =>
    have hc := h c (List.mem_cons_self c t)
    have ht := ih fun x hx => h x (List.mem_cons_of_mem _ hx)
    simp [did.escAll, did.escByte, hc, ht]

theorem escAll_ne_nil {l : List Nat} (h : l ≠ []) : did.escAll l ≠ [] := by
  cases l with
  | nil => exact absurd rfl h
  | cons c t => unfold did.escAll did.escByte; split <;> simp

theorem isIdChar_ne_colon {c : Nat} (h : did.isIdChar c = true) : (c == 58) = false := by
  by_cases he : c = 58
  · rw [he] at h; exact absurd h (by decide)
  · simp [he]

theorem isMethodChar_colon : did.isMethodChar 58 = false := by decide

theorem readMethodNameLoop_complete (E : List Nat) :
    ∀ (m2 m1 : List Nat), (∀ c ∈ m2, did.isMethodChar c = true) → m1 ++ m2 ≠ [] →
    did.readMethodNameLoop (did.prefixBytes ++ (m1 ++ m2) ++ 58 :: E) (4 + m1.length)
      (m2 ++ 58 :: E) = .ok (m1 ++ m2) := by
  intro m2
  induction m2 with
  | nil =>
    intro m1 _ hne
    have hm1 : m1 ≠ [] := by simpa using hne
    have hlen : 0 < m1.length := List.length_pos.mpr hm1
    have h4 : ¬(4 + m1.length = 4) := by omega
    have htake : (did.prefixBytes ++ (m1 ++ 58 :: E)).take (4 + m1.length) =
        did.prefixBytes ++ m1 := by
      rw [show (4 : Nat) + m1.length = did.prefixBytes.length + m1.length from rfl]
      rw [List.take_append]
      rw [List.take_left]
    have hdrop : (did.prefixBytes ++ m1).drop 4 = m1 := by
      rw [show (4 : Nat) = did.prefixBytes.length from rfl, List.drop_left]
    simp only [List.append_nil, List.nil_append]
    simp [did.readMethodNameLoop, isMethodChar_colon, h4]
    rw [htake]
    exact hdrop
  | cons c m2t ih =>
    intro m1 hmc hne
    have hc := hmc c (List.mem_cons_self c m2t)
    have := ih (m1 ++ [c])
      (fun x hx => hmc x (List.mem_cons_of_mem _ hx))
      (by simp)
    simp only [List.cons_append]
    simp only [did.readMethodNameLoop, hc, if_true]
    simpa [List.append_assoc, Nat.add_assoc] using this

theorem specIDEscLoop_complete (s : List Nat) :
    ∀ (w b : List Nat) (i : Nat), (∀ c ∈ w, c < 256) →
    did.specIDEscLoop s b i (did.escAll w) = .ok (b ++ w) := by
  intro w
  induction w with
  | nil => intro b i _; simp [did.escAll, did.specIDEscLoop]
  | cons c wt ih =>
    intro b i hw
    have hc : c < 256 := hw c (List.mem_cons_self c wt)
    have hwt : ∀ x ∈ wt, x < 256 := fun x hx => hw x (List.mem_cons_of_mem _ hx)
    by_cases hid : did.isIdChar c = true
    · have hesc : did.escByte c = [c] := by simp [did.escByte, hid]
      have h58 := isIdChar_ne_colon hid
      simp only [did.escAll, hesc, List.cons_append, List.nil_append]
      simp only [did.specIDEscLoop, h58, hid, Bool.false_eq_true, if_false, if_true]
      rw [ih (b ++ [c]) (i + 1) hwt]
      simp
    · have hid2 : did.isIdChar c = false := by
        revert hid; cases did.isIdChar c <;> simp
      have hesc : did.escByte c = [37, did.hexDig (c / 16), did.hexDig (c % 16)] := by
        simp [did.escByte, hid2]
      have step : ∀ (T b2 : List Nat) (h1 h2 j : Nat),
          did.specIDEscLoop s b2 j (37 :: h1 :: h2 :: T) =
          (match did.parseHex s (j + 1) (h1 :: h2 :: T) with
           | .error e => .error e
           | .ok v => did.specIDEscLoop s (b2 ++ [v]) (j + 3) T) := by
        intro T b2 h1 h2 j
        conv_lhs => rw [did.specIDEscLoop]
        simp only [show ((37 : Nat) == 58) = false from rfl,
          show did.isIdChar 37 = false from rfl,
          show ((37 : Nat) == 37) = true from rfl, Bool.false_eq_true, if_false, if_true]
      simp only [did.escAll, hesc, List.cons_append, List.nil_append]
      rw [step]
      rw [parseHex_encoded s (did.escAll wt) (i + 1) c hc]
      show did.specIDEscLoop s (b ++ [c]) (i + 3) (did.escAll wt) = _
      rw [ih (b ++ [c]) (i + 3) hwt]
      simp

theorem specIDScanLoop_all (s : List Nat) (start : Nat) :
    ∀ (u : List Nat) (i : Nat), (∀ c ∈ u, did.isIdChar c = true) →
    did.specIDScanLoop s start i u = .ok (s.drop start) := by
  intro u
  induction u with
  | nil => intro i _; rfl
  | cons c t ih =>
    intro i h
    have hc := h c (List.mem_cons_self c t)
    have h58 := isIdChar_ne_colon hc
    simp only [did.specIDScanLoop, h58, hc, Bool.false_eq_true, if_false, if_true]
    exact ih (i + 1) fun x hx => h x (List.mem_cons_of_mem _ hx)

theorem specIDScanLoop_mixed (A w' : List Nat) (c : Nat) (hc : did.isIdChar c = false)
    (hw : ∀ x ∈ c :: w', x < 256) :
    ∀ (u2 u1 : List Nat), (∀ x ∈ u1, did.isIdChar x = true) →
      (∀ x ∈ u2, did.isIdChar x = true) →
    did.specIDScanLoop (A ++ u1 ++ u2 ++ did.escAll (c :: w')) A.length
      (A.length + u1.length) (u2 ++ did.escAll (c :: w')) =
    .ok (u1 ++ u2 ++ (c :: w')) := by
  intro u2
  induction u2 with
  | nil =>
    intro u1 h1 _
    have hesc : did.escAll (c :: w') =
        37 :: did.hexDig (c / 16) :: did.hexDig (c % 16) :: did.escAll w' := by
      simp [did.escAll, did.escByte, hc]
    have hslice : ((A ++ u1 ++ [] ++ did.escAll (c :: w')).take
        (A.length + u1.length)).drop A.length = u1 := by
      rw [show A ++ u1 ++ [] ++ did.escAll (c :: w') =
        A ++ (u1 ++ did.escAll (c :: w')) by simp]
      rw [List.take_append, List.take_left, List.drop_left]
    have hrun := specIDEscLoop_complete (A ++ u1 ++ [] ++ did.escAll (c :: w'))
      (c :: w') u1 (A.length + u1.length) hw
    conv_lhs =>
      rw [List.nil_append, hesc, did.specIDScanLoop]
    simp only [show ((37 : Nat) == 58) = false from rfl,
      show did.isIdChar 37 = false from rfl,
      show ((37 : Nat) == 37) = true from rfl, Bool.false_eq_true, if_false, if_true]
    rw [← hesc]
    have : (A ++ u1 ++ [] ++ did.escAll (c :: w')) = A ++ u1 ++ did.escAll (c :: w') := by
      simp
    rw [this] at hslice hrun
    rw [this, hslice, hrun]
    simp
  | cons x u2t ih =>
    intro u1 h1 h2
    have hx := h2 x (List.mem_cons_self x u2t)
    have h58 := isIdChar_ne_colon hx
    conv_lhs => rw [List.cons_append, did.specIDScanLoop]
    simp only [h58, hx, Bool.false_eq_true, if_false, if_true]
    have := ih (u1 ++ [x]) (by
        intro y hy
        rcases List.mem_append.mp hy with hy1 | hy2
        · exact h1 y hy1
        · rw [List.mem_singleton.mp hy2]; exact hx)
      (fun y hy => h2 y (List.mem_cons_of_mem _ hy))
    simpa [List.append_assoc, Nat.add_assoc] using this

theorem dropWhile_head_false {p : Nat → Bool} :
    ∀ (l : List Nat) {c : Nat} {t : List Nat}, List.dropWhile p l = c :: t → p c = false := by
  intro l
  induction l with
  | nil => intro c t h; cases h
  | cons x xs ih =>
    intro c t h
    rw [List.dropWhile_cons] at h
    by_cases hx : p x = true
    · rw [if_pos hx] at h
      exact ih h
    · rw [if_neg hx] at h
      cases h
      revert hx; cases p x <;> simp

theorem didString_shape {d : did.DID} (h : did.ValidDID d) :
    did.DIDString d = did.prefixBytes ++ d.Method ++ 58 :: did.escAll d.SpecID := by
  unfold did.DIDString
  rw [if_neg (by intro hcon; exact h.1 hcon.1)]
  by_cases hall : ∀ c ∈ d.SpecID, did.isIdChar c = true
  · have hcount : d.SpecID.countP (fun c => !(did.isIdChar c)) = 0 := by
      rw [List.countP_eq_zero]
      intro a ha
      simp [hall a ha]
    rw [if_pos hcount, escAll_of_idChar hall]
  · have hcount : ¬(d.SpecID.countP (fun c => !(did.isIdChar c)) = 0) := by
      rw [List.countP_eq_zero]
      intro hno
      apply hall
      intro a ha
      have := hno a ha
      revert this; cases did.isIdChar a <;> simp
    rw [if_neg hcount]

theorem didString_parse_ok {d : did.DID} (h : did.ValidDID d) :
    did.Parse (did.DIDString d) = .ok d := by
  obtain ⟨hm, hmc, hsp, hspb⟩ := h
  rw [didString_shape ⟨hm, hmc, hsp, hspb⟩]
  have hEn : did.escAll d.SpecID ≠ [] := escAll_ne_nil hsp
  have hlen : (did.prefixBytes ++ d.Method ++ 58 :: did.escAll d.SpecID).length =
      4 + d.Method.length + 1 + (did.escAll d.SpecID).length := by
    simp [did.prefixBytes]
    omega
  have htake4 : (did.prefixBytes ++ d.Method ++ 58 :: did.escAll d.SpecID).take 4 =
      did.prefixBytes := by
    rw [List.append_assoc]
    rw [show (4 : Nat) = did.prefixBytes.length from rfl, List.take_left]
  unfold did.Parse
  rw [if_pos (by
    constructor
    · rw [hlen]; omega
    · exact htake4)]
  unfold did.parseRest
  have hmn : did.readMethodName (did.prefixBytes ++ d.Method ++ 58 :: did.escAll d.SpecID) =
      .ok d.Method := by
    unfold did.readMethodName
    have hdrop4 : (did.prefixBytes ++ d.Method ++ 58 :: did.escAll d.SpecID).drop 4 =
        d.Method ++ 58 :: did.escAll d.SpecID := by
      rw [List.append_assoc]
      rw [show (4 : Nat) = did.prefixBytes.length from rfl, List.drop_left]
    rw [hdrop4]
    have := readMethodNameLoop_complete (did.escAll d.SpecID) d.Method [] hmc (by simpa using hm)
    simpa using this
  rw [hmn]
  simp only []
  have hstart : ¬(4 + d.Method.length + 1 ≥
      (did.prefixBytes ++ d.Method ++ 58 :: did.escAll d.SpecID).length) := by
    rw [hlen]
    have := List.length_pos.mpr hEn
    omega
  rw [if_neg hstart]
  have hdropStart : (did.prefixBytes ++ d.Method ++ 58 :: did.escAll d.SpecID).drop
      (4 + d.Method.length + 1) = did.escAll d.SpecID := by
    rw [List.append_assoc]
    rw [show (4 : Nat) + d.Method.length + 1 =
      did.prefixBytes.length + (d.Method.length + 1) from by
        simp [did.prefixBytes, Nat.add_assoc]]
    rw [List.drop_append]
    rw [show d.Method.length + 1 = d.Method.length + 1 from rfl]
    rw [List.drop_append 1]
    rfl
  rw [hdropStart]
  have hscan : did.specIDScanLoop (did.prefixBytes ++ d.Method ++ 58 :: did.escAll d.SpecID)
      (4 + d.Method.length + 1) (4 + d.Method.length + 1) (did.escAll d.SpecID) =
      .ok d.SpecID := by
    by_cases hall : ∀ c ∈ d.SpecID, did.isIdChar c = true
    · rw [specIDScanLoop_all _ _ _ _ (by rw [escAll_of_idChar hall]; exact hall)]
      rw [hdropStart, escAll_of_idChar hall]
    · set u := d.SpecID.takeWhile did.isIdChar with hu
      set r := d.SpecID.dropWhile did.isIdChar with hr
      have hsplit : u ++ r = d.SpecID := List.takeWhile_append_dropWhile _ _
      have hrne : r ≠ [] := by
        intro hnil
        apply hall
        rw [hr] at hnil
        exact fun x hx => List.dropWhile_eq_nil_iff.mp hnil x hx
      obtain ⟨c, w', hcw⟩ := List.exists_cons_of_ne_nil hrne
      have hcbad : did.isIdChar c = false := dropWhile_head_false d.SpecID (hr ▸ hcw : List.dropWhile did.isIdChar d.SpecID = c :: w')
      have huid : ∀ x ∈ u, did.isIdChar x = true :=
        fun x hx => List.mem_takeWhile_imp (hu ▸ hx)
      have hbytes : ∀ x ∈ c :: w', x < 256 := by
        intro x hx
        apply hspb
        rw [← hsplit, hcw]
        exact List.mem_append_right _ hx
      have hA : (did.prefixBytes ++ d.Method ++ [58]).length = 4 + d.Method.length + 1 := by
        simp [did.prefixBytes]
        omega
      have hform : did.prefixBytes ++ d.Method ++ 58 :: did.escAll d.SpecID =
          (did.prefixBytes ++ d.Method ++ [58]) ++ [] ++ u ++ did.escAll (c :: w') := by
        have : did.escAll d.SpecID = u ++ did.escAll (c :: w') := by
          rw [← hsplit, hcw, escAll_append, escAll_of_idChar huid]
        rw [this]
        simp
      have hrun := specIDScanLoop_mixed (did.prefixBytes ++ d.Method ++ [58]) w' c hcbad
        hbytes u [] (by intro x hx; cases hx) huid
      have hrun2 : did.specIDScanLoop
          (did.prefixBytes ++ d.Method ++ [58] ++ [] ++ u ++ did.escAll (c :: w'))
          (did.prefixBytes ++ d.Method ++ [58]).length
          (did.prefixBytes ++ d.Method ++ [58]).length
          (u ++ did.escAll (c :: w')) = .ok (u ++ (c :: w')) := by
        simpa using hrun
      rw [hform]
      rw [show did.escAll d.SpecID = u ++ did.escAll (c :: w') from by
        rw [← hsplit, hcw, escAll_append, escAll_of_idChar huid]]
      rw [show (4 : Nat) + d.Method.length + 1 = (did.prefixBytes ++ d.Method ++ [58]).length from hA.symm]
      rw [hrun2, ← hsplit, hcw]
  rw [hscan]

theorem readMethodNameLoop_ok_shape (s : List Nat) :
    ∀ (rest : List Nat) (i : Nat) (m : List Nat), rest = s.drop i → 4 ≤ i → i ≤ s.length →
    (∀ c ∈ (s.take i).drop 4, did.isMethodChar c = true) →
    did.readMethodNameLoop s i rest = .ok m →
    m ≠ [] ∧ ∀ c ∈ m, did.isMethodChar c = true := by
  intro rest
  induction rest with
  | nil =>
    intro i m _ _ _ _ hok
    simp [did.readMethodNameLoop] at hok
  | cons c rest2 ih =>
    intro i m hinv h4 hle hpre hok
    have hci : s[i]? = some c := by
      have h0 : (s.drop i)[0]? = some c := by rw [← hinv]; simp
      rwa [List.getElem?_drop, Nat.add_zero] at h0
    have hilt : i < s.length := by
      by_contra hge
      push_neg at hge
      rw [List.getElem?_eq_none (by omega)] at hci
      cases hci
    simp only [did.readMethodNameLoop] at hok
    by_cases hmc : did.isMethodChar c = true
    · rw [if_pos hmc] at hok
      refine ih (i + 1) m ?_ (by omega) (by omega) ?_ hok
      · rw [← List.drop_drop, ← hinv]
        simp
      · intro x hx
        rw [List.take_succ] at hx
        rw [hci] at hx
        have hlt : 4 ≤ (s.take i).length := by
          rw [List.length_take]
          omega
        rw [List.drop_append_of_le_length hlt] at hx
        rcases List.mem_append.mp hx with h1 | h2
        · exact hpre x h1
        · rw [show x = c from by simpa using h2]
          exact hmc
    · rw [if_neg hmc] at hok
      by_cases h58 : (c == 58) = true
      · rw [if_pos h58] at hok
        by_cases hi4 : (i == 4) = true
        · rw [if_pos hi4] at hok; cases hok
        · rw [if_neg hi4] at hok
          have hm : m = (s.take i).drop 4 := (Except.ok.inj hok).symm
          constructor
          · rw [hm]
            intro hnil
            have hlen0 : ((s.take i).drop 4).length = 0 := by rw [hnil]; rfl
            rw [List.length_drop, List.length_take] at hlen0
            have hi : ¬(i = 4) := by simpa using hi4
            omega
          · rw [hm]; exact hpre
      · rw [if_neg h58] at hok; cases hok

theorem specIDEscLoop_ok_shape (s : List Nat) :
    ∀ (b : List Nat) (i : Nat) (rest : List Nat), ∀ (b2 : List Nat),
    (∀ c ∈ b, c < 256) → (∀ c ∈ rest, c < 256) →
    did.specIDEscLoop s b i rest = .ok b2 →
    (∀ c ∈ b2, c < 256) ∧ ((b ≠ [] ∨ rest ≠ []) → b2 ≠ []) := by
  intro b i rest
  induction b, i, rest using did.specIDEscLoop.induct s with
  | case1 b i =>
    intro b2 hb _ hok
    simp only [did.specIDEscLoop] at hok
    have : b2 = b := (Except.ok.inj hok).symm
    subst this
    exact ⟨hb, fun h => by rcases h with h | h; exact h; exact absurd rfl h⟩
  | case2 b i d tail h58 hemp =>
    intro b2 _ _ hok
    simp only [did.specIDEscLoop, h58, hemp, if_true] at hok
    cases hok
  | case3 b i d tail h58 hemp ih =>
    intro b2 hb hrest hok
    simp only [did.specIDEscLoop, h58, hemp, if_true, if_false] at hok
    have hd : d < 256 := hrest d (List.mem_cons_self d tail)
    have := ih b2 (by
        intro x hx
        rcases List.mem_append.mp hx with h1 | h2
        · exact hb x h1
        · rw [List.mem_singleton.mp h2]; exact hd)
      (fun x hx => hrest x (List.mem_cons_of_mem _ hx)) hok
    exact ⟨this.1, fun _ => this.2 (Or.inl (by simp))⟩
  | case4 b i d tail h58 hid ih =>
    intro b2 hb hrest hok
    simp only [did.specIDEscLoop, h58, hid, if_true, if_false] at hok
    have hd : d < 256 := hrest d (List.mem_cons_self d tail)
    have := ih b2 (by
        intro x hx
        rcases List.mem_append.mp hx with h1 | h2
        · exact hb x h1
        · rw [List.mem_singleton.mp h2]; exact hd)
      (fun x hx => hrest x (List.mem_cons_of_mem _ hx)) hok
    exact ⟨this.1, fun _ => this.2 (Or.inl (by simp))⟩
  | case5 b i d tail h58 hid h37 e herr =>
    intro b2 _ _ hok
    simp only [did.specIDEscLoop, h58, hid, h37, herr, if_true, if_false] at hok
    cases hok
  | case6 b i d h58 hid h37 v x y rest3 hph ih =>
    intro b2 hb hrest hok
    simp only [did.specIDEscLoop, h58, hid, h37, hph, if_true, if_false] at hok
    have hv : v < 256 := parseHex_ok_lt hph
    have := ih b2 (by
        intro z hz
        rcases List.mem_append.mp hz with h1 | h2
        · exact hb z h1
        · rw [List.mem_singleton.mp h2]; exact hv)
      (by
        intro z hz
        exact hrest z (List.mem_cons_of_mem _ (List.mem_cons_of_mem _ (List.mem_cons_of_mem _ hz))))
      hok
    exact ⟨this.1, fun _ => this.2 (Or.inl (by simp))⟩
  | case7 b i d h58 hid h37 v x hx hph =>
    intro b2 _ _ hok
    rcases x with _ | ⟨x1, _ | ⟨x2, t⟩⟩
    · simp [did.parseHex] at hph
    · simp only [did.parseHex] at hph
      rcases hn : did.hexNibble x1 with _ | w <;> rw [hn] at hph <;> cases hph
    · exact absurd rfl (hx x1 x2 t)
  | case8 b i d tail h58 hid h37 =>
    intro b2 _ _ hok
    simp only [did.specIDEscLoop, h58, hid, h37, if_false] at hok
    cases hok

theorem specIDScanLoop_ok_shape (s : List Nat) (start : Nat)
    (hs : ∀ c ∈ s, c < 256) (hstart : start < s.length) :
    ∀ (rest : List Nat) (i : Nat) (sp : List Nat), (∀ c ∈ rest, c < 256) →
    did.specIDScanLoop s start i rest = .ok sp →
    sp ≠ [] ∧ ∀ c ∈ sp, c < 256 := by
  intro rest
  induction rest with
  | nil =>
    intro i sp _ hok
    simp only [did.specIDScanLoop] at hok
    have hsp : sp = s.drop start := (Except.ok.inj hok).symm
    subst hsp
    constructor
    · rw [Ne, List.drop_eq_nil_iff]
      omega
    · exact fun c hc => hs c (List.drop_subset _ _ hc)
  | cons c rest2 ih =>
    intro i sp hrest hok
    simp only [did.specIDScanLoop] at hok
    by_cases h58 : (c == 58) = true
    · rw [if_pos h58] at hok
      by_cases hemp : rest2.isEmpty = true
      · rw [if_pos hemp] at hok; cases hok
      · rw [if_neg hemp] at hok
        exact ih (i + 1) sp (fun x hx => hrest x (List.mem_cons_of_mem _ hx)) hok
    · rw [if_neg h58] at hok
      by_cases hid : did.isIdChar c = true
      · rw [if_pos hid] at hok
        exact ih (i + 1) sp (fun x hx => hrest x (List.mem_cons_of_mem _ hx)) hok
      · rw [if_neg hid] at hok
        by_cases h37 : (c == 37) = true
        · rw [if_pos h37] at hok
          have := specIDEscLoop_ok_shape s ((s.take i).drop start) i (c :: rest2) sp
            (fun x hx => hs x (List.take_subset _ _ (List.drop_subset _ _ hx)))
            hrest hok
          exact ⟨this.2 (Or.inr (by simp)), this.1⟩
        · rw [if_neg h37] at hok; cases hok

theorem parse_ok_valid {s : List Nat} {d : did.DID} (hbytes : ∀ c ∈ s, c < 256)
    (hp : did.Parse s = .ok d) : did.ValidDID d := by
  unfold did.Parse at hp
  by_cases hpre : 4 ≤ s.length ∧ s.take 4 = did.prefixBytes
  case neg =>
    rw [if_neg hpre] at hp
    split at hp <;> first
    | cases hp
    | (split at hp <;> cases hp)
  case pos =>
    rw [if_pos hpre] at hp
    unfold did.parseRest at hp
    rcases hmn : did.readMethodName s with e | method <;> rw [hmn] at hp
    · cases hp
    · simp only [] at hp
      by_cases hge : 4 + method.length + 1 ≥ s.length
      · rw [if_pos hge] at hp; cases hp
      · rw [if_neg hge] at hp
        rcases hsc : did.specIDScanLoop s (4 + method.length + 1)
            (4 + method.length + 1) (s.drop (4 + method.length + 1)) with e | sp <;>
          rw [hsc] at hp
        · cases hp
        · have hd : d = ⟨method, sp⟩ := (Except.ok.inj hp).symm
          subst hd
          have hmshape := readMethodNameLoop_ok_shape s (s.drop 4) 4 method rfl
            (by omega) hpre.1
            (by
              intro x hx
              rw [List.drop_eq_nil_iff.mpr (by rw [List.length_take]; omega)] at hx
              cases hx)
            hmn
          have hsshape := specIDScanLoop_ok_shape s (4 + method.length + 1) hbytes
            (by omega) (s.drop (4 + method.length + 1)) (4 + method.length + 1) sp
            (fun x hx => hbytes x (List.drop_subset _ _ hx)) hsc
          exact ⟨hmshape.1, hmshape.2, hsshape.1, hsshape.2⟩

/-- C3: serialize-then-reparse is a fixed point: for every byte string `s`
accepted by `Parse`, re-parsing `String` of the parsed value succeeds and
yields the very same value (even though `String(Parse(s))` need not be
byte-identical to `s`: `DIDString` percent-encodes every spec-id byte
outside the idchar set, raw colons included). -/
theorem claim_C3_parse_string_fixed_point (s : List Nat) (d : did.DID)
    (hbytes : ∀ c ∈ s, c < 256) (hp : did.Parse s = .ok d) :
    did.Parse (did.DIDString d) = .ok d :=
  didString_parse_ok (parse_ok_valid hbytes hp)

/-- C3 witness: `"did:example:a%3Ab"` parses to spec-id `a:b`; its canonical
string re-parses to the same value. -/
theorem claim_C3_parse_string_fixed_point_witness :
    did.Parse (did.DIDString ⟨did.bytesOfString "example", [97, 58, 98]⟩) =
      .ok ⟨did.bytesOfString "example", [97, 58, 98]⟩ :=
  claim_C3_parse_string_fixed_point (did.bytesOfString "did:example:a%3Ab")
    ⟨did.bytesOfString "example", [97, 58, 98]⟩ (by decide) (by decide)

theorem isQFChar_37 : did.isQFChar 37 = false := by decide

theorem ewlLoop_zero (a b : List Nat) : did.ewlLoop 0 a b = false := rfl

theorem ewlLoop_succ_nil (fuel : Nat) (b : List Nat) :
    did.ewlLoop (fuel + 1) [] b = b.isEmpty := rfl

theorem ewlLoop_succ_cons_nil (fuel x : Nat) (a2 : List Nat) :
    did.ewlLoop (fuel + 1) (x :: a2) [] = false := rfl

theorem ewlLoop_succ_cons (fuel x y : Nat) (a2 b2 : List Nat) :
    did.ewlLoop (fuel + 1) (x :: a2) (y :: b2) =
      (match did.readQF x a2 with
       | none => false
       | some (av, a3) =>
         match did.readQF y b2 with
         | none => false
         | some (bv, b3) => av == bv && did.ewlLoop fuel a3 b3) := rfl

theorem decodeEscapedF_succ_nil (fuel : Nat) :
    did.decodeEscapedF (fuel + 1) [] = some [] := rfl

theorem decodeEscapedF_succ_cons (fuel x : Nat) (t : List Nat) :
    did.decodeEscapedF (fuel + 1) (x :: t) =
      (match did.readQF x t with
       | none => none
       | some (v, t2) =>
         match did.decodeEscapedF fuel t2 with
         | none => none
         | some l2 => some (v :: l2)) := rfl


theorem ewlLoop_decodeF :
    ∀ (fuel : Nat) (a b : List Nat), did.ewlLoop fuel a b = true →
    ∃ l, did.decodeEscapedF fuel a = some l ∧ did.decodeEscapedF fuel b = some l := by
  intro fuel
  induction fuel with
  | zero => intro a b h; rw [ewlLoop_zero] at h; cases h
  | succ fuel ih =>
    intro a b h
    rcases a with _ | ⟨x, a2⟩
    · rw [ewlLoop_succ_nil, List.isEmpty_iff] at h
      subst h
      exact ⟨[], rfl, rfl⟩
    rcases b with _ | ⟨y, b2⟩
    · rw [ewlLoop_succ_cons_nil] at h; cases h
    rw [ewlLoop_succ_cons] at h
    rcases hra : did.readQF x a2 with _ | ⟨av, a3⟩ <;> simp only [hra] at h
    · cases h
    rcases hrb : did.readQF y b2 with _ | ⟨bv, b3⟩ <;> simp only [hrb] at h
    · cases h
    rcases Bool.and_eq_true_iff.mp h with ⟨hv, hrec⟩
    obtain ⟨l, hda, hdb⟩ := ih a3 b3 hrec
    refine ⟨av :: l, ?_, ?_⟩
    · simp only [decodeEscapedF_succ_cons, hra, hda]
    · simp only [decodeEscapedF_succ_cons, hrb, hdb]
      have hvv : av = bv := by simpa using hv
      rw [hvv]

theorem readQF_shrink {x : Nat} {t t2 : List Nat} {v : Nat}
    (h : did.readQF x t = some (v, t2)) : t2.length ≤ t.length := by
  unfold did.readQF at h
  split_ifs at h with hq h37
  · cases h; simp
  · rcases hph : did.parseHex (x :: t) 1 t with e | w <;> rw [hph] at h
    · cases h
    · cases h
      simp

theorem decodeEscapedF_fuel :
    ∀ (f1 : Nat) (l r : List Nat) (f2 : Nat), did.decodeEscapedF f1 l = some r →
    l.length < f2 → did.decodeEscapedF f2 l = some r := by
  intro f1
  induction f1 with
  | zero =>
    intro l r f2 h _
    rcases l with _ | ⟨x, t⟩
    · cases h
      rcases f2 with _ | f2 <;> rfl
    · cases h
  | succ f1 ih =>
    intro l r f2 h hlen
    rcases l with _ | ⟨x, t⟩
    · cases h
      rcases f2 with _ | f2 <;> rfl
    · rw [decodeEscapedF_succ_cons] at h
      rcases hr : did.readQF x t with _ | ⟨v, t2⟩ <;> simp only [hr] at h
      · cases h
      rcases hd : did.decodeEscapedF f1 t2 with _ | l2 <;> simp only [hd] at h
      · cases h
      have hrr : r = v :: l2 := by simpa using h.symm
      subst hrr
      have ht2 : t2.length ≤ t.length := readQF_shrink hr
      rcases f2 with _ | f2
      · omega
      simp only [decodeEscapedF_succ_cons, hr,
        ih t2 l2 f2 hd (by simp at hlen; omega)]

/-- C2: the DID URL strings `did:example:1?a=1&a=2` and
`did:example:1?a=2&a=1`, differing only in the order of the duplicate
parameter `a`, are not equivalent; and in general the query comparison
(`escapedWithLeadEqual`) accepts two raw components only when they are
byte-identical, or both carry the lead byte and their remainders resolve —
percent-encodings decoded — to the very same octet sequence, so the same
parameters in the same order. -/
theorem claim_C2_query_order_sensitivity :
    did.URLEqualStrings (did.bytesOfString "did:example:1?a=1&a=2")
      (did.bytesOfString "did:example:1?a=2&a=1") = false ∧
    ∀ (a b : List Nat) (lead : Nat), did.escapedWithLeadEqual a b lead = true →
      a = b ∨ (a.head? = some lead ∧ b.head? = some lead ∧
        ∃ l, did.decodeEscaped (a.drop 1) = some l ∧
          did.decodeEscaped (b.drop 1) = some l) := by
  constructor
  · decide
  · intro a b lead h
    unfold did.escapedWithLeadEqual at h
    by_cases hab : (a == b) = true
    · exact Or.inl (by simpa using hab)
    · rw [if_neg hab] at h
      by_cases hemp : (a.isEmpty || b.isEmpty) = true
      · rw [if_pos hemp] at h; cases h
      · rw [if_neg hemp] at h
        by_cases hlead : (!(a.headD 0 == lead) || !(b.headD 0 == lead)) = true
        · rw [if_pos hlead] at h; cases h
        · rw [if_neg hlead] at h
          have hne : a ≠ [] ∧ b ≠ [] := by
            revert hemp
            simp [List.isEmpty_iff]
          have hld : a.headD 0 = lead ∧ b.headD 0 = lead := by
            revert hlead
            simp
          obtain ⟨l, hda, hdb⟩ := ewlLoop_decodeF ((a.drop 1).length + 1)
            (a.drop 1) (b.drop 1) h
          refine Or.inr ⟨?_, ?_, l, ?_, ?_⟩
          · rcases a with _ | ⟨x, a2⟩
            · exact absurd rfl hne.1
            · simpa using hld.1
          · rcases b with _ | ⟨y, b2⟩
            · exact absurd rfl hne.2
            · simpa using hld.2
          · exact hda
          · exact decodeEscapedF_fuel _ _ _ _ hdb (by omega)

/-- C2 witness: `"?a=%31"` and `"?a=1"` compare equal as queries, and indeed
both resolve to the octets of `a=1`. -/
theorem claim_C2_query_order_sensitivity_witness :
    did.bytesOfString "?a=%31" = did.bytesOfString "?a=1" ∨
    ((did.bytesOfString "?a=%31").head? = some 63 ∧
      (did.bytesOfString "?a=1").head? = some 63 ∧
      ∃ l, did.decodeEscaped ((did.bytesOfString "?a=%31").drop 1) = some l ∧
        did.decodeEscaped ((did.bytesOfString "?a=1").drop 1) = some l) :=
  claim_C2_query_order_sensitivity.2 (did.bytesOfString "?a=%31")
    (did.bytesOfString "?a=1") 63 (by decide)

theorem pathEscapeSafe_ne_37 {c : Nat} (h : did.pathEscapeSafe c = true) : c ≠ 37 := by
  intro he
  subst he
  exact absurd h (by decide)

theorem pathEscapeSafe_ne_47 {c : Nat} (h : did.pathEscapeSafe c = true) : c ≠ 47 := by
  intro he
  subst he
  exact absurd h (by decide)

theorem hexDig_ne_47 (n : Nat) : did.hexDig n ≠ 47 := by
  unfold did.hexDig
  split <;> omega

theorem pathEscape_no_slash (s : List Nat) : 47 ∉ did.pathEscape s := by
  induction s with
  | nil => simp [did.pathEscape]
  | cons c t ih =>
    rw [show did.pathEscape (c :: t) = did.pathEscapeByte c ++ did.pathEscape t from rfl]
    intro hmem
    rcases List.mem_append.mp hmem with hm | hm
    · by_cases hs : did.pathEscapeSafe c = true
      · rw [did.pathEscapeByte, if_pos hs] at hm
        simp at hm
        exact pathEscapeSafe_ne_47 hs hm.symm
      · rw [did.pathEscapeByte, if_neg hs] at hm
        simp only [List.mem_cons, List.not_mem_nil, or_false] at hm
        rcases hm with h | h | h
        · omega
        · exact hexDig_ne_47 _ h.symm
        · exact hexDig_ne_47 _ h.symm
    · exact ih hm

theorem pathEscapeByte_ne_nil (c : Nat) : did.pathEscapeByte c ≠ [] := by
  unfold did.pathEscapeByte
  split <;> simp

theorem pathEscape_ne_nil {s : List Nat} (h : s ≠ []) : did.pathEscape s ≠ [] := by
  rcases s with _ | ⟨c, t⟩
  · exact absurd rfl h
  · rw [show did.pathEscape (c :: t) = did.pathEscapeByte c ++ did.pathEscape t from rfl]
    simp [pathEscapeByte_ne_nil c]

theorem bed_cons_safe {c : Nat} (t : List Nat) (h : (c == 37) = false) :
    did.bestEffortDecode (c :: t) = c :: did.bestEffortDecode t := by
  conv_lhs => rw [did.bestEffortDecode]
  rw [h]
  rfl

theorem bed_cons_encoded (c : Nat) (t : List Nat) (hc : c < 256) :
    did.bestEffortDecode (37 :: did.hexDig (c / 16) :: did.hexDig (c % 16) :: t) =
    c :: did.bestEffortDecode t := by
  conv_lhs => rw [did.bestEffortDecode]
  rw [parseHex_encoded (37 :: did.hexDig (c / 16) :: did.hexDig (c % 16) :: t) t 1 c hc]
  rfl

theorem bestEffortDecode_pathEscape :
    ∀ (s t : List Nat), (∀ c ∈ s, c < 256) →
    did.bestEffortDecode (did.pathEscape s ++ t) = s ++ did.bestEffortDecode t := by
  intro s
  induction s with
  | nil =>
    intro t _
    simp [did.pathEscape]
  | cons c s2 ih =>
    intro t h
    have hc : c < 256 := h c (List.mem_cons_self c s2)
    have h2 : ∀ x ∈ s2, x < 256 := fun x hx => h x (List.mem_cons_of_mem _ hx)
    rw [show did.pathEscape (c :: s2) = did.pathEscapeByte c ++ did.pathEscape s2 from rfl]
    by_cases hs : did.pathEscapeSafe c = true
    · rw [did.pathEscapeByte, if_pos hs]
      have hne : (c == 37) = false := by
        simp [pathEscapeSafe_ne_37 hs]
      rw [List.append_assoc,
        show ([c] : List Nat) ++ (did.pathEscape s2 ++ t) =
          c :: (did.pathEscape s2 ++ t) from rfl,
        bed_cons_safe _ hne, ih t h2]
      rfl
    · rw [did.pathEscapeByte, if_neg hs]
      rw [List.append_assoc,
        show ([37, did.hexDig (c / 16), did.hexDig (c % 16)] : List Nat) ++
            (did.pathEscape s2 ++ t) =
          37 :: did.hexDig (c / 16) :: did.hexDig (c % 16) ::
            (did.pathEscape s2 ++ t) from rfl,
        bed_cons_encoded c _ hc, ih t h2]
      rfl

theorem bestEffortDecode_pathEscape_nil (s : List Nat) (h : ∀ c ∈ s, c < 256) :
    did.bestEffortDecode (did.pathEscape s) = s := by
  have := bestEffortDecode_pathEscape s [] h
  simpa [did.bestEffortDecode] using this

theorem psSplit_nil (cur : List Nat) :
    did.psSplit cur [] = if cur = [] then [] else [did.bestEffortDecode cur] := rfl

theorem psSplit_cons47 (cur t : List Nat) :
    did.psSplit cur (47 :: t) = did.bestEffortDecode cur :: did.psSplit [] t := rfl

theorem psSplit_cons {c : Nat} (cur t : List Nat) (h : (c == 47) = false) :
    did.psSplit cur (c :: t) = did.psSplit (cur ++ [c]) t := by
  conv_lhs => rw [did.psSplit]
  rw [h]
  rfl

theorem psSplit_append_noslash :
    ∀ (s cur t : List Nat), 47 ∉ s →
    did.psSplit cur (s ++ t) = did.psSplit (cur ++ s) t := by
  intro s
  induction s with
  | nil =>
    intro cur t _
    simp
  | cons c s2 ih =>
    intro cur t h
    have hc : (c == 47) = false := by
      simp only [beq_eq_false_iff_ne]
      intro he
      exact h (he ▸ List.mem_cons_self c s2)
    rw [List.cons_append, psSplit_cons _ _ hc,
      ih (cur ++ [c]) t fun hm => h (List.mem_cons_of_mem _ hm)]
    simp

theorem trimPrefixSlash_cons47 (t : List Nat) : did.trimPrefixSlash (47 :: t) = t := rfl

theorem setPathSegments_cons (s : List Nat) (rest : List (List Nat)) :
    did.SetPathSegments (s :: rest) =
    47 :: (did.pathEscape s ++
      ((List.map (fun r => 47 :: did.pathEscape r) rest).flatten ++
        (if (s :: rest).getLast? = some [] then [47] else []))) := by
  rw [show did.SetPathSegments (s :: rest) =
    (List.map (fun r => 47 :: did.pathEscape r) (s :: rest)).flatten ++
      (if (s :: rest).getLast? = some [] then [47] else []) from rfl]
  rw [show (List.map (fun r => 47 :: did.pathEscape r) (s :: rest)).flatten =
    (47 :: did.pathEscape s) ++
      (List.map (fun r => 47 :: did.pathEscape r) rest).flatten from rfl]
  simp [List.append_assoc]

theorem psSplit_roundtrip_aux :
    ∀ (segs : List (List Nat)), segs ≠ [] → (∀ s ∈ segs, ∀ c ∈ s, c < 256) →
    did.psSplit [] (did.trimPrefixSlash (did.SetPathSegments segs)) = segs := by
  intro segs
  induction segs with
  | nil =>
    intro h _
    exact absurd rfl h
  | cons s rest ih =>
    intro _ hbytes
    have hs : ∀ c ∈ s, c < 256 := hbytes s (List.mem_cons_self s rest)
    have hrest : ∀ x ∈ rest, ∀ c ∈ x, c < 256 :=
      fun x hx => hbytes x (List.mem_cons_of_mem _ hx)
    rw [setPathSegments_cons, trimPrefixSlash_cons47]
    rcases rest with _ | ⟨r0, rest2⟩
    · by_cases hnil : s = []
      · subst hnil
        decide
      · rw [if_neg (by simp [hnil] : ¬(([s] : List (List Nat)).getLast? = some []))]
        rw [show ((List.map (fun r => 47 :: did.pathEscape r)
            ([] : List (List Nat))).flatten : List Nat) = [] from rfl]
        rw [show (([] : List Nat) ++ ([] : List Nat)) = ([] : List Nat) from rfl]
        rw [psSplit_append_noslash (did.pathEscape s) [] [] (pathEscape_no_slash s),
          List.nil_append, psSplit_nil, if_neg (pathEscape_ne_nil hnil),
          bestEffortDecode_pathEscape_nil s hs]
    · rw [List.getLast?_cons_cons]
      rw [show (List.map (fun r => 47 :: did.pathEscape r) (r0 :: rest2)).flatten =
        (47 :: did.pathEscape r0) ++
          (List.map (fun r => 47 :: did.pathEscape r) rest2).flatten from rfl]
      rw [show ((47 :: did.pathEscape r0) ++
            (List.map (fun r => 47 :: did.pathEscape r) rest2).flatten) ++
            (if (r0 :: rest2).getLast? = some [] then [47] else []) =
          47 :: (did.pathEscape r0 ++
            ((List.map (fun r => 47 :: did.pathEscape r) rest2).flatten ++
              (if (r0 :: rest2).getLast? = some [] then [47] else []))) from by simp]
      rw [psSplit_append_noslash (did.pathEscape s) [] _ (pathEscape_no_slash s),
        List.nil_append, psSplit_cons47, bestEffortDecode_pathEscape_nil s hs]
      have ihr := ih (List.cons_ne_nil r0 rest2) hrest
      rw [setPathSegments_cons, trimPrefixSlash_cons47] at ihr
      rw [ihr]

/-- C7: the path-segment accessors satisfy the round-trip law — for every
sequence of byte-strings `segs` (empty segments and segments holding '/'
included), reading `PathSegments` back from the raw path that
`SetPathSegments segs` builds returns exactly `segs`: unsafe bytes are
percent-encoded on the way in and decoded on the way out. -/
theorem claim_C7_path_segment_round_trip (segs : List (List Nat))
    (h : ∀ s ∈ segs, ∀ c ∈ s, c < 256) :
    did.PathSegments (did.SetPathSegments segs) = segs := by
  rcases segs with _ | ⟨s, rest⟩
  · rfl
  · have hne : did.SetPathSegments (s :: rest) ≠ [] := by
      rw [setPathSegments_cons]
      simp
    rw [did.PathSegments, if_neg hne]
    exact psSplit_roundtrip_aux (s :: rest) (List.cons_ne_nil s rest) h

/-- C7 witness: the round trip at `["", "a/b", "x"]` — an empty segment and a
segment with an embedded '/' — returns exactly the same three segments. -/
theorem claim_C7_path_segment_round_trip_witness :
    (∀ s ∈ [[], did.bytesOfString "a/b", did.bytesOfString "x"],
      ∀ c ∈ s, c < 256) ∧
    did.PathSegments (did.SetPathSegments
      [[], did.bytesOfString "a/b", did.bytesOfString "x"]) =
      [[], did.bytesOfString "a/b", did.bytesOfString "x"] :=
  ⟨by decide, claim_C7_path_segment_round_trip _ (by decide)⟩
